import Mathlib

/-!
Shallow embedding of the "good SRP" user-management core of
`src/cpp/user_example/user_good_example.cpp`.

The C++ code signals failures with exceptions; following the spec's
normalization (§7) these become typed `Except` results, with one
constructor per `throw` site. The `std::map<std::string, User>` backing
store of `InMemoryUserRepository` is embedded as an association list keyed
by the user id; `save` performs the insert-or-overwrite of
`users[user.id] = user` and additionally records the saved value in a log,
so that "Repository.save is never invoked" claims are expressible.
-/

/-- The `User` data struct: `id`, `name`, `email`, `isActive`
(default `true` in both C++ constructors). -/
structure User where
  id : String
  name : String
  email : String
  isActive : Bool
deriving DecidableEq, Repr

/-- Backing store of `InMemoryUserRepository`: association list keyed by id,
mirroring `std::map<std::string, User> users`. -/
abbrev Store := List (String × User)

/-- Repository state: the backing store plus an instrumentation log of every
value passed to `save`, used only to state "save was never invoked". -/
structure RepoState where
  users : Store
  saveLog : List User
deriving DecidableEq, Repr

/-- `users[k] = u` on an association list: replace the (unique, first)
binding of `k` if present, else append a new binding. -/
def storeInsert (s : Store) (k : String) (u : User) : Store :=
  match s with
  | [] => [(k, u)]
  | (k', u') :: rest =>
    if k = k' then (k, u) :: rest else (k', u') :: storeInsert rest k u

/-- `InMemoryUserRepository::save`: `users[user.id] = user; return users[user.id]`.
The returned value is the stored copy, i.e. `user` itself. -/
def save (s : RepoState) (user : User) : User × RepoState :=
  (user, ⟨storeInsert s.users user.id user, s.saveLog ++ [user]⟩)

/-- `InMemoryUserRepository::findById`: `users.find(userId)`, returning the
stored record or `none` (the C++ `nullptr`). -/
def findById (s : Store) (userId : String) : Option User :=
  match s with
  | [] => none
  | (k, u) :: rest => if userId = k then some u else findById rest userId

/-- The two `throw std::invalid_argument` sites of `UserValidatorImpl::validate`,
as typed rejection reasons (spec §7 normalization). -/
inductive ValidationError where
  | nameRequired
  | invalidEmailFormat
deriving DecidableEq, Repr

/-- `UserValidatorImpl::validate`: name must be non-empty, else the email must
contain `'@'` and contain `'.'` (`email.find('@') == npos || email.find('.')
== npos` rejects). `String.data` is the character list of the C++ string. -/
def validate (user : User) : Except ValidationError Unit :=
  if user.name = "" then
    .error .nameRequired
  else if !(user.email.data.contains '@') || !(user.email.data.contains '.') then
    .error .invalidEmailFormat
  else
    .ok ()

/-- `UserPresenterImpl::formatForConsole`. -/
def formatForConsole (user : User) : String :=
  let status := if user.isActive then "Active" else "Inactive"
  "User ID: " ++ user.id ++ "\nName: " ++ user.name ++ "\nEmail: "
    ++ user.email ++ "\nStatus: " ++ status

/-- `UserPresenterImpl::formatForJson`: string concatenation with no escaping,
exactly as in the source. -/
def formatForJson (user : User) : String :=
  "\x7b\"id\":\"" ++ user.id ++ "\", \"name\":\"" ++ user.name
    ++ "\", \"email\":\"" ++ user.email ++ "\", \"active\":"
    ++ (if user.isActive then "true" else "false") ++ "\x7d"

/-- The `throw` sites of `UserService::getFormattedUserDetails` and
`UserService::activateUser`, as typed failures (spec §7 normalization). -/
inductive ServiceError where
  | notFound (userId : String)
  | unsupportedFormat (format : String)
deriving DecidableEq, Repr

/-- `UserService::createUser`: build `User(id, name, email)` (so
`isActive = true` by the constructor default), validate, and only on success
save; a validation failure propagates without touching the repository. -/
def createUser (s : RepoState) (id name email : String) :
    Except ValidationError User × RepoState :=
  let newUser : User := ⟨id, name, email, true⟩
  match validate newUser with
  | .error e => (.error e, s)
  | .ok () =>
    let (saved, s') := save s newUser
    (.ok saved, s')

/-- `UserService::getFormattedUserDetails` with an explicit format argument:
look up, then dispatch on `"console"` / `"json"`, else unsupported-format. -/
def getFormattedUserDetails (s : RepoState) (userId : String)
    (format : String) : Except ServiceError String :=
  match findById s.users userId with
  | none => .error (.notFound userId)
  | some user =>
    if format = "console" then .ok (formatForConsole user)
    else if format = "json" then .ok (formatForJson user)
    else .error (.unsupportedFormat format)

/-- The C++ declaration defaults the format parameter to `"console"`; calling
the service without a format means calling it with `"console"`. -/
def getFormattedUserDetailsDefault (s : RepoState) (userId : String) :
    Except ServiceError String :=
  getFormattedUserDetails s userId "console"

/-- `UserService::activateUser`: look up; if absent fail with not-found; else
set `isActive = true` through the pointer into the store (mutating the entry
found under `userId`) and then `save` the updated record. -/
def activateUser (s : RepoState) (userId : String) :
    Except ServiceError User × RepoState :=
  match findById s.users userId with
  | none => (.error (.notFound userId), s)
  | some user =>
    let user' : User := { user with isActive := true }
    let s1 : RepoState := ⟨storeInsert s.users userId user', s.saveLog⟩
    let (saved, s2) := save s1 user'
    (.ok saved, s2)

/-- Modelled from the spec: a "valid" email in the spec's sense "must contain
`@` and a `.` after it" — some `'@'` is followed, strictly later, by a `'.'`. -/
def specEmailShape (cs : List Char) : Bool :=
  match cs with
  | [] => false
  | c :: rest => (c = '@' && rest.contains '.') || specEmailShape rest

/-- Modelled from the spec: a valid `(name, email)` pair, "non-empty name,
email containing `@` then `.`" (spec §8). -/
def specValidPair (name email : String) : Bool :=
  !(name = "") && specEmailShape email.data

-- Basic lemmas about the store.

theorem findById_storeInsert_self (s : Store) (k : String) (u : User) :
    findById (storeInsert s k u) k = some u := by
  induction s with
  | nil => simp [storeInsert, findById]
  | cons hd tl ih =>
    obtain ⟨k', u'⟩ := hd
    by_cases h : k = k'
    · simp [storeInsert, findById, h]
    · simp [storeInsert, findById, h, ih]

theorem findById_storeInsert_other (s : Store) (k k0 : String) (u : User)
    (h : k ≠ k0) : findById (storeInsert s k0 u) k = findById s k := by
  induction s with
  | nil => simp [storeInsert, findById, h]
  | cons hd tl ih =>
    obtain ⟨k', u'⟩ := hd
    by_cases h' : k0 = k'
    · subst h'
      simp [storeInsert, findById, h]
    · by_cases h'' : k = k'
      · simp [storeInsert, findById, h', h'']
      · simp [storeInsert, findById, h', h'', ih]

theorem mem_storeInsert (s : Store) (k0 : String) (u0 : User)
    (p : String × User) (hp : p ∈ storeInsert s k0 u0) :
    p = (k0, u0) ∨ p ∈ s := by
  induction s with
  | nil =>
    simp [storeInsert] at hp
    exact Or.inl hp
  | cons hd tl ih =>
    obtain ⟨k', u'⟩ := hd
    by_cases h : k0 = k'
    · simp [storeInsert, h] at hp
      rcases hp with h1 | h1
      · exact Or.inl (by simp [h1, h])
      · exact Or.inr (List.mem_cons_of_mem _ h1)
    · simp [storeInsert, h] at hp
      rcases hp with h1 | h1
      · exact Or.inr (by simp [h1])
      · rcases ih h1 with h2 | h2
        · exact Or.inl h2
        · exact Or.inr (List.mem_cons_of_mem _ h2)

theorem validate_isActive_irrelevant (user : User) (b : Bool) :
    validate { user with isActive := b } = validate user := by
  simp [validate]

theorem findById_mem (s : Store) (k : String) (u : User)
    (h : findById s k = some u) : (k, u) ∈ s := by
  induction s with
  | nil => simp [findById] at h
  | cons hd tl ih =>
    obtain ⟨k', u'⟩ := hd
    by_cases hk : k = k'
    · simp [findById, hk] at h
      simp [hk, h]
    · simp [findById, hk] at h
      exact List.mem_cons_of_mem _ (ih h)

theorem specEmailShape_mem (cs : List Char)
    (h : specEmailShape cs = true) : '@' ∈ cs ∧ '.' ∈ cs := by
  induction cs with
  | nil => simp [specEmailShape] at h
  | cons c rest ih =>
    simp only [specEmailShape, Bool.or_eq_true, Bool.and_eq_true,
      decide_eq_true_eq] at h
    rcases h with ⟨hc, hd⟩ | h
    · subst hc
      refine ⟨List.mem_cons_self _ _, ?_⟩
      exact List.mem_cons_of_mem _ (List.mem_of_elem_eq_true hd)
    · obtain ⟨h1, h2⟩ := ih h
      exact ⟨List.mem_cons_of_mem _ h1, List.mem_cons_of_mem _ h2⟩

theorem validate_ok_iff (user : User) :
    validate user = .ok () ↔
      (user.name ≠ "" ∧ '@' ∈ user.email.data ∧ '.' ∈ user.email.data) := by
  constructor
  · intro hv
    by_cases hn : user.name = ""
    · simp [validate, hn] at hv
    · by_cases h1 : '@' ∈ user.email.data
      · by_cases h2 : '.' ∈ user.email.data
        · exact ⟨hn, h1, h2⟩
        · simp [validate, hn, h1, h2] at hv
      · simp [validate, hn, h1] at hv
  · rintro ⟨hn, h1, h2⟩
    simp [validate, hn, h1, h2]

theorem validate_ok_of_specValid (id name email : String)
    (h : specValidPair name email = true) :
    validate ⟨id, name, email, true⟩ = .ok () := by
  simp only [specValidPair, Bool.and_eq_true, Bool.not_eq_true',
    decide_eq_false_iff_not] at h
  obtain ⟨hname, hshape⟩ := h
  obtain ⟨h1, h2⟩ := specEmailShape_mem _ hshape
  exact validate_ok_iff _ |>.mpr ⟨hname, h1, h2⟩

/-- C1 counterexample: with a non-empty name, `validate` accepts the email
`".a@b"`, which contains `'@'` and `'.'` but no `'.'` after the `'@'` —
refuting "accepts only if the email contains a `'.'` at a position after
the `'@'`". -/
theorem validate_accepts_dot_before_at :
    validate ⟨"u1", "A", ".a@b", true⟩ = .ok () ∧
    specEmailShape ".a@b".data = false :=
  ⟨rfl, rfl⟩

/-- C1 (amended): assuming the name rule passed, `validate` accepts exactly
the emails containing `'@'` and containing `'.'` (anywhere — the `'.'` need
not come after the `'@'`), and any other email is rejected with the
invalid-email-format reason. -/
theorem validate_email_rule (user : User) (h : user.name ≠ "") :
    (validate user = .ok () ↔
      ('@' ∈ user.email.data ∧ '.' ∈ user.email.data)) ∧
    (('@' ∉ user.email.data ∨ '.' ∉ user.email.data) →
      validate user = .error .invalidEmailFormat) := by
  constructor
  · rw [validate_ok_iff]
    constructor
    · rintro ⟨_, h1, h2⟩
      exact ⟨h1, h2⟩
    · rintro ⟨h1, h2⟩
      exact ⟨h, h1, h2⟩
  · intro hbad
    rcases hbad with h1 | h1
    · have h2 : ¬ ('@' ∈ user.email.data) := h1
      simp [validate, h, h2]
    · by_cases h2 : '@' ∈ user.email.data
      · simp [validate, h, h1, h2]
      · simp [validate, h, h2]

/-- C1 witness. -/
theorem validate_email_rule_witness :
    validate ⟨"u2", "B", "nodotnoat", true⟩ = .error .invalidEmailFormat :=
  (validate_email_rule ⟨"u2", "B", "nodotnoat", true⟩ (by decide)).2
    (Or.inl (by decide))

/-- C2: for every starting state, id, and spec-valid `(name, email)` pair
(non-empty name, email containing `'@'` then `'.'`), `createUser` returns a
User with `isActive = true` carrying exactly the given fields, and a
subsequent `findById` retrieves that same record. -/
theorem createUser_valid_roundtrip (s : RepoState) (id name email : String)
    (h : specValidPair name email = true) :
    (createUser s id name email).1 = .ok ⟨id, name, email, true⟩ ∧
    findById (createUser s id name email).2.users id =
      some ⟨id, name, email, true⟩ := by
  have hv := validate_ok_of_specValid id name email h
  refine ⟨by simp [createUser, hv, save], ?_⟩
  simp only [createUser, hv, save]
  exact findById_storeInsert_self s.users id ⟨id, name, email, true⟩

/-- C2 witness. -/
theorem createUser_valid_roundtrip_witness :
    (createUser ⟨[], []⟩ "u123" "Alice Wonderland" "alice@example.com").1 =
      .ok ⟨"u123", "Alice Wonderland", "alice@example.com", true⟩ ∧
    findById (createUser ⟨[], []⟩ "u123" "Alice Wonderland"
        "alice@example.com").2.users "u123" =
      some ⟨"u123", "Alice Wonderland", "alice@example.com", true⟩ :=
  createUser_valid_roundtrip ⟨[], []⟩ "u123" "Alice Wonderland"
    "alice@example.com" (by decide)

/-- C3 counterexample: the pair `("A", ".a@b")` is invalid in the spec's
sense (no `'.'` after the `'@'`), yet from the empty store
`createUser "u1" "A" ".a@b"` succeeds and writes the record — refuting
"for every invalid pair createUser rejects and the store stays empty". -/
theorem createUser_invalid_pair_writes :
    specValidPair "A" ".a@b" = false ∧
    findById ([] : Store) "u1" = none ∧
    (createUser ⟨[], []⟩ "u1" "A" ".a@b").1 = .ok ⟨"u1", "A", ".a@b", true⟩ ∧
    findById (createUser ⟨[], []⟩ "u1" "A" ".a@b").2.users "u1" =
      some ⟨"u1", "A", ".a@b", true⟩ :=
  ⟨rfl, rfl, rfl, rfl⟩

/-- C3 (amended): for every pair the code's validator rejects (empty name,
or email lacking `'@'` or lacking `'.'`) and every starting state in which
the id is absent, `createUser` returns the rejection, the repository state —
including the save log, so `save` was never invoked — is unchanged, and
`findById` for that id still returns not-found. -/
theorem createUser_rejected_no_write (s : RepoState) (id name email : String)
    (e : ValidationError)
    (hv : validate ⟨id, name, email, true⟩ = .error e)
    (habs : findById s.users id = none) :
    (createUser s id name email).1 = .error e ∧
    (createUser s id name email).2 = s ∧
    findById (createUser s id name email).2.users id = none := by
  refine ⟨by simp [createUser, hv], by simp [createUser, hv], ?_⟩
  simpa [createUser, hv] using habs

/-- C3 witness. -/
theorem createUser_rejected_no_write_witness :
    (createUser ⟨[], []⟩ "u125" "" "invalid").1 =
      .error .nameRequired ∧
    (createUser ⟨[], []⟩ "u125" "" "invalid").2 = ⟨[], []⟩ ∧
    findById (createUser ⟨[], []⟩ "u125" "" "invalid").2.users "u125" =
      none :=
  createUser_rejected_no_write ⟨[], []⟩ "u125" "" "invalid"
    .nameRequired rfl rfl

/-- C6: the validator applies its rules in order and the first failure wins:
every user with an empty name is rejected with the name-required reason, no
matter what the email is; in particular `createUser "u125" "" "invalid"`
from any state is rejected with that reason. -/
theorem validate_first_failure_wins :
    (∀ user : User, user.name = "" →
      validate user = .error .nameRequired) ∧
    (∀ s : RepoState,
      (createUser s "u125" "" "invalid").1 = .error .nameRequired) := by
  constructor
  · intro user hn
    simp [validate, hn]
  · intro s
    simp [createUser, validate]

/-- C6 witness. -/
theorem validate_first_failure_wins_witness :
    validate ⟨"u125", "", "invalid", true⟩ = .error .nameRequired :=
  validate_first_failure_wins.1 ⟨"u125", "", "invalid", true⟩ rfl

/-- C8: `activateUser` on an id absent from the store fails with not-found
and returns the repository state unchanged (store and save log identical). -/
theorem activateUser_notFound (s : RepoState) (userId : String)
    (h : findById s.users userId = none) :
    activateUser s userId = (.error (.notFound userId), s) := by
  simp [activateUser, h]

/-- C8 witness (spec scenario 4: `activateUser "u999"` on the empty store). -/
theorem activateUser_notFound_witness :
    activateUser ⟨[], []⟩ "u999" =
      (.error (.notFound "u999"), (⟨[], []⟩ : RepoState)) :=
  activateUser_notFound ⟨[], []⟩ "u999" rfl

/-- C9: for every stored valid user and every format other than `"console"`
and `"json"`, `getFormattedUserDetails` returns the typed unsupported-format
failure naming that format; and calling the service without a format (the
C++ default argument) is the same as calling it with `"console"`. -/
theorem getFormattedUserDetails_unsupported :
    (∀ (s : RepoState) (userId : String) (user : User) (format : String),
      findById s.users userId = some user →
      validate user = .ok () →
      format ≠ "console" → format ≠ "json" →
      getFormattedUserDetails s userId format =
        .error (.unsupportedFormat format)) ∧
    (∀ (s : RepoState) (userId : String),
      getFormattedUserDetailsDefault s userId =
        getFormattedUserDetails s userId "console") := by
  constructor
  · intro s userId user format hf _ h1 h2
    simp [getFormattedUserDetails, hf, h1, h2]
  · intro s userId
    rfl

/-- C9 witness. -/
theorem getFormattedUserDetails_unsupported_witness :
    getFormattedUserDetails
      ⟨[("u1", ⟨"u1", "A", "a@b.", true⟩)], []⟩ "u1" "xml" =
      .error (.unsupportedFormat "xml") :=
  getFormattedUserDetails_unsupported.1 ⟨[("u1", ⟨"u1", "A", "a@b.", true⟩)], []⟩
    "u1" ⟨"u1", "A", "a@b.", true⟩ "xml" rfl rfl (by decide) (by decide)

/-- C10: when the id is already bound in the store and the new
`(name, email)` pair is valid, `createUser` raises no duplicate-id error: it
returns the newly built record and `findById` afterwards yields that new
record in place of the old one (last write wins). -/
theorem createUser_overwrites (s : RepoState) (id name email : String)
    (old : User) (hold : findById s.users id = some old)
    (h : specValidPair name email = true) :
    (createUser s id name email).1 = .ok ⟨id, name, email, true⟩ ∧
    findById (createUser s id name email).2.users id =
      some ⟨id, name, email, true⟩ := by
  have hv := validate_ok_of_specValid id name email h
  refine ⟨by simp [createUser, hv, save], ?_⟩
  simp only [createUser, hv, save]
  exact findById_storeInsert_self s.users id ⟨id, name, email, true⟩

/-- C10 witness: re-creating `"u123"` with new fields overwrites Alice. -/
theorem createUser_overwrites_witness :
    (createUser ⟨[("u123", ⟨"u123", "Alice Wonderland",
        "alice@example.com", true⟩)], []⟩ "u123" "Alice Two"
        "alice2@example.com").1 =
      .ok ⟨"u123", "Alice Two", "alice2@example.com", true⟩ ∧
    findById (createUser ⟨[("u123", ⟨"u123", "Alice Wonderland",
        "alice@example.com", true⟩)], []⟩ "u123" "Alice Two"
        "alice2@example.com").2.users "u123" =
      some ⟨"u123", "Alice Two", "alice2@example.com", true⟩ :=
  createUser_overwrites _ "u123" "Alice Two" "alice2@example.com"
    ⟨"u123", "Alice Wonderland", "alice@example.com", true⟩ rfl (by decide)

theorem user_eta_active (user : User) (h : user.isActive = true) :
    ({ user with isActive := true } : User) = user := by
  cases user
  simp_all

theorem activateUser_fst_of_found (s : RepoState) (userId : String)
    (user : User) (h : findById s.users userId = some user)
    (ha : user.isActive = true) :
    (activateUser s userId).1 = .ok user := by
  have hu := user_eta_active user ha
  simp [activateUser, h, hu, save]

theorem findById_after_activate (s : RepoState) (userId : String)
    (user : User) (h : findById s.users userId = some user)
    (ha : user.isActive = true) :
    findById (activateUser s userId).2.users userId = some user := by
  have hu := user_eta_active user ha
  simp only [activateUser, h, hu, save]
  by_cases hid : userId = user.id
  · rw [← hid]
    exact findById_storeInsert_self _ userId user
  · rw [findById_storeInsert_other _ userId user.id user hid]
    exact findById_storeInsert_self s.users userId user

/-- C7: for an id whose stored record is already active, `activateUser`
succeeds and returns exactly the stored record; the record remains stored
unchanged, and an immediately repeated call returns the same result
(idempotence). -/
theorem activateUser_idempotent (s : RepoState) (userId : String)
    (user : User) (h : findById s.users userId = some user)
    (ha : user.isActive = true) :
    (activateUser s userId).1 = .ok user ∧
    findById (activateUser s userId).2.users userId = some user ∧
    (activateUser (activateUser s userId).2 userId).1 = .ok user := by
  refine ⟨activateUser_fst_of_found s userId user h ha, ?_, ?_⟩
  · exact findById_after_activate s userId user h ha
  · exact activateUser_fst_of_found _ userId user
      (findById_after_activate s userId user h ha) ha

/-- C7 witness. -/
theorem activateUser_idempotent_witness :
    (activateUser ⟨[("u124", ⟨"u124", "Bob The Builder",
        "bob@example.net", true⟩)], []⟩ "u124").1 =
      .ok ⟨"u124", "Bob The Builder", "bob@example.net", true⟩ ∧
    findById (activateUser ⟨[("u124", ⟨"u124", "Bob The Builder",
        "bob@example.net", true⟩)], []⟩ "u124").2.users "u124" =
      some ⟨"u124", "Bob The Builder", "bob@example.net", true⟩ ∧
    (activateUser (activateUser ⟨[("u124", ⟨"u124", "Bob The Builder",
        "bob@example.net", true⟩)], []⟩ "u124").2 "u124").1 =
      .ok ⟨"u124", "Bob The Builder", "bob@example.net", true⟩ :=
  activateUser_idempotent _ "u124"
    ⟨"u124", "Bob The Builder", "bob@example.net", true⟩ rfl rfl

/-- The states reachable from the empty repository through `UserService`
operations alone. `getFormattedUserDetails` reads but never writes (its
embedding returns no state), so its step leaves the state unchanged. -/
inductive Reachable : RepoState → Prop where
  | empty : Reachable ⟨[], []⟩
  | create (s : RepoState) (id name email : String) :
      Reachable s → Reachable (createUser s id name email).2
  | details (s : RepoState) (userId format : String) :
      Reachable s → Reachable s
  | activate (s : RepoState) (userId : String) :
      Reachable s → Reachable (activateUser s userId).2

/-- C5: in every repository state reachable from the empty store through
`UserService` operations only, every record held by the store is one the
validator accepts. -/
theorem reachable_store_validated (s : RepoState) (h : Reachable s) :
    ∀ p ∈ s.users, validate p.2 = .ok () := by
  induction h with
  | empty => simp
  | create s0 id name email _ ih =>
    intro p hp
    cases hv : validate ⟨id, name, email, true⟩ with
    | error e =>
      simp only [createUser, hv] at hp
      exact ih p hp
    | ok u =>
      cases u
      simp only [createUser, hv, save] at hp
      rcases mem_storeInsert _ _ _ _ hp with h1 | h1
      · rw [h1]
        exact hv
      · exact ih p h1
  | details s0 userId format _ ih => exact ih
  | activate s0 userId _ ih =>
    intro p hp
    cases hf : findById s0.users userId with
    | none =>
      simp only [activateUser, hf] at hp
      exact ih p hp
    | some user =>
      have husr : validate user = .ok () :=
        ih (userId, user) (findById_mem _ _ _ hf)
      have huser' : validate { user with isActive := true } = .ok () := by
        rw [validate_isActive_irrelevant]
        exact husr
      simp only [activateUser, hf, save] at hp
      rcases mem_storeInsert _ _ _ _ hp with h1 | h1
      · rw [h1]
        exact huser'
      · rcases mem_storeInsert _ _ _ _ h1 with h2 | h2
        · rw [h2]
          exact huser'
        · exact ih p h2

/-- C5 witness: the state after creating Alice is reachable, and its single
record passes validation. -/
theorem reachable_store_validated_witness :
    validate ⟨"u123", "Alice Wonderland", "alice@example.com", true⟩ =
      .ok () :=
  reachable_store_validated _
    (Reachable.create ⟨[], []⟩ "u123" "Alice Wonderland"
      "alice@example.com" Reachable.empty)
    ("u123", ⟨"u123", "Alice Wonderland", "alice@example.com", true⟩)
    (by decide)

/-- Modelled from the spec: one step of "parsing that string back" — consume
an expected literal from the front of the input, or fail. -/
def eatLit (pat cs : List Char) : Option (List Char) :=
  match pat, cs with
  | [], rest => some rest
  | p :: ps, c :: rest => if c = p then eatLit ps rest else none
  | _ :: _, [] => none

/-- Modelled from the spec: read a JSON string body up to its closing
double-quote (the renderer emits no escape sequences). -/
def takeStr (cs : List Char) : Option (List Char × List Char) :=
  match cs with
  | [] => none
  | c :: rest =>
    if c = '"' then some ([], rest)
    else
      match takeStr rest with
      | none => none
      | some (v, r) => some (c :: v, r)

/-- Modelled from the spec: the `active` value — a boolean literal followed
by the closing brace ending the object. -/
def parseBoolEnd (cs : List Char) : Option Bool :=
  match eatLit "true\x7d".data cs with
  | some [] => some true
  | some (_ :: _) => none
  | none =>
    match eatLit "false\x7d".data cs with
    | some [] => some false
    | _ => none

/-- Modelled from the spec: parse back a JSON object with exactly the keys
`id`, `name`, `email`, `active` in the layout `formatForJson` emits,
returning the four field values; any other shape fails. -/
def parseJsonUser (s : String) : Option (String × String × String × Bool) :=
  (eatLit "\x7b\"id\":\"".data s.data).bind fun cs1 =>
  (takeStr cs1).bind fun p1 =>
  (eatLit ", \"name\":\"".data p1.2).bind fun cs3 =>
  (takeStr cs3).bind fun p2 =>
  (eatLit ", \"email\":\"".data p2.2).bind fun cs5 =>
  (takeStr cs5).bind fun p3 =>
  (eatLit ", \"active\":".data p3.2).bind fun cs7 =>
  (parseBoolEnd cs7).map fun b => (⟨p1.1⟩, ⟨p2.1⟩, ⟨p3.1⟩, b)

theorem eatLit_append (pat rest : List Char) :
    eatLit pat (pat ++ rest) = some rest := by
  induction pat with
  | nil => simp [eatLit]
  | cons p ps ih => simp [eatLit, ih]

theorem takeStr_append (v rest : List Char) (h : '"' ∉ v) :
    takeStr (v ++ '"' :: rest) = some (v, rest) := by
  induction v with
  | nil => simp [takeStr]
  | cons c cs ih =>
    simp only [List.mem_cons, not_or] at h
    obtain ⟨hc, hcs⟩ := h
    have hc' : ¬ (c = '"') := fun he => hc he.symm
    simp [takeStr, hc', ih hcs]

theorem parseBoolEnd_lit (b : Bool) :
    parseBoolEnd ((if b then "true" else "false") ++ "\x7d").data = some b := by
  cases b <;> rfl

theorem formatForJson_data (user : User) :
    (formatForJson user).data =
      "\x7b\"id\":\"".data ++ (user.id.data ++ '"' ::
        (", \"name\":\"".data ++ (user.name.data ++ '"' ::
          (", \"email\":\"".data ++ (user.email.data ++ '"' ::
            (", \"active\":".data ++
              ((if user.isActive then "true" else "false")
                ++ "\x7d").data)))))) := by
  cases hb : user.isActive <;>
    simp [formatForJson, hb, String.data_append, List.append_assoc]

theorem parse_formatForJson (user : User)
    (hid : '"' ∉ user.id.data) (hname : '"' ∉ user.name.data)
    (hemail : '"' ∉ user.email.data) :
    parseJsonUser (formatForJson user) =
      some (user.id, user.name, user.email, user.isActive) := by
  unfold parseJsonUser
  rw [formatForJson_data user, eatLit_append]
  simp only [Option.some_bind]
  rw [takeStr_append _ _ hid]
  simp only [Option.some_bind]
  rw [eatLit_append]
  simp only [Option.some_bind]
  rw [takeStr_append _ _ hname]
  simp only [Option.some_bind]
  rw [eatLit_append]
  simp only [Option.some_bind]
  rw [takeStr_append _ _ hemail]
  simp only [Option.some_bind]
  rw [eatLit_append]
  simp only [Option.some_bind]
  rw [parseBoolEnd_lit user.isActive]
  rfl

/-- C4 counterexample: a stored user whose name contains a double quote
(`createUser` accepts it — validation never inspects quotes) renders to a
string that no longer parses back: `formatForJson` escapes nothing, so the
quote inside the name terminates the JSON string early and parsing fails —
refuting the round-trip for every stored user. -/
theorem json_roundtrip_fails_on_quote :
    (createUser ⟨[], []⟩ "u1" "A\"" "a@b.").1 =
      .ok ⟨"u1", "A\"", "a@b.", true⟩ ∧
    getFormattedUserDetails (createUser ⟨[], []⟩ "u1" "A\"" "a@b.").2
        "u1" "json" =
      .ok (formatForJson ⟨"u1", "A\"", "a@b.", true⟩) ∧
    parseJsonUser (formatForJson ⟨"u1", "A\"", "a@b.", true⟩) = none :=
  ⟨rfl, rfl, rfl⟩

/-- C4 (amended): for every stored user whose id, name and email contain no
double-quote character, `getFormattedUserDetails(id, "json")` returns the
JSON object rendering with exactly the keys `id`, `name`, `email`, `active`
(a boolean literal for `active`), and parsing that string back recovers the
stored record's field values. -/
theorem getFormattedUserDetails_json_roundtrip (s : RepoState)
    (userId : String) (user : User)
    (h : findById s.users userId = some user)
    (hid : '"' ∉ user.id.data) (hname : '"' ∉ user.name.data)
    (hemail : '"' ∉ user.email.data) :
    getFormattedUserDetails s userId "json" = .ok (formatForJson user) ∧
    parseJsonUser (formatForJson user) =
      some (user.id, user.name, user.email, user.isActive) := by
  refine ⟨?_, parse_formatForJson user hid hname hemail⟩
  simp [getFormattedUserDetails, h]

/-- C4 witness (spec scenario 3: Bob rendered as JSON and parsed back). -/
theorem getFormattedUserDetails_json_roundtrip_witness :
    getFormattedUserDetails ⟨[("u124", ⟨"u124", "Bob The Builder",
        "bob@example.net", true⟩)], []⟩ "u124" "json" =
      .ok (formatForJson ⟨"u124", "Bob The Builder",
        "bob@example.net", true⟩) ∧
    parseJsonUser (formatForJson ⟨"u124", "Bob The Builder",
        "bob@example.net", true⟩) =
      some ("u124", "Bob The Builder", "bob@example.net", true) :=
  getFormattedUserDetails_json_roundtrip
    ⟨[("u124", ⟨"u124", "Bob The Builder", "bob@example.net", true⟩)], []⟩
    "u124" ⟨"u124", "Bob The Builder", "bob@example.net", true⟩
    rfl (by decide) (by decide) (by decide)
